import Mathlib

/-!
# Verification of the `synaptecltd/emulator` anomaly engine

A shallow embedding of the repository's anomaly engine (trend and spike
anomalies with their delay/duration/repeat state machine), the shaping
function registry, the anomaly container, and the three-phase waveform
synthesis step, together with theorems settling the specification claims.

Modelling conventions:
* Go `float64` values are modelled as elements of a `LinearOrderedField`
  with a `FloorRing` structure; the anomaly engine is generic so that the
  concrete claims are evaluated at `ℚ` (exact, computable) while the
  three-phase synthesis lives at `ℝ` (it uses `π` and a sine function).
* Go `int` is modelled as `ℤ`, Go `uint64` as `ℕ`.
* Go's `int(x)` float-to-int conversion truncates toward zero (`goTrunc`).
* The injected `*rand.Rand` source is modelled as explicit streams of
  uniform and normal draws with cursors (`Rand`), threaded through steps.
* Shaping functions (`mathfuncs.MathsFunction`) are passed as function
  parameters; the one stateful registry entry (`random_walk`, a package
  level closure in the source) threads its shared globals explicitly
  (`WalkGlobals`).
* The approximate sine routine `fast.Sin` used by the three-phase step is
  an external library, so the step is parameterised over it (`sinF`).
-/

namespace Emulator

variable {α : Type} [LinearOrderedField α] [FloorRing α]

/-- Go's `int(x)` conversion on floats: truncation toward zero. -/
def goTrunc (x : α) : ℤ := if 0 ≤ x then ⌊x⌋ else -⌊-x⌋

/-- The injected random source `*rand.Rand`: a stream `u` of uniform draws
and a stream `n` of standard-normal draws, with cursors `ui`, `ni`. -/
structure Rand (α : Type) where
  u : ℕ → α
  n : ℕ → α
  ui : ℕ
  ni : ℕ

/-- `r.Float64()`: take the next uniform draw. -/
def Rand.nextUniform (r : Rand α) : α × Rand α :=
  (r.u r.ui, { r with ui := r.ui + 1 })

/-- `r.NormFloat64()`: take the next normal draw. -/
def Rand.nextNormal (r : Rand α) : α × Rand α :=
  (r.n r.ni, { r with ni := r.ni + 1 })

/-- `AnomalyBase` (anomalybase.go): configuration and runtime state shared
by the trend and spike anomaly variants. -/
structure AnomalyBase (α : Type) where
  repeats : ℕ
  off : Bool
  startDelay : α
  duration : α
  isAnomalyActive : Bool
  startDelayIndex : ℤ
  elapsedActivatedIndex : ℤ
  elapsedActivatedTime : α
  countRepeats : ℕ

/-- `AnomalyBase.CheckAnomalyActive` (anomalybase.go): returns whether the
anomaly should be active this timestep; switches the anomaly off (mutating
the receiver) when all repetitions are complete. -/
def checkAnomalyActive (a : AnomalyBase α) (Ts : α) : Bool × AnomalyBase α :=
  if a.countRepeats < a.repeats ∨ a.repeats = 0 then
    (decide (a.startDelayIndex ≥ goTrunc (a.startDelay / Ts) - 1), a)
  else
    (false, { a with off := true })

/-- `trendAnomaly` (trend variant): `AnomalyBase` plus magnitude, the
invert/reverse flags and the period of the shaping function. The resolved
`magFunction` itself is passed to the step function as a parameter. -/
structure TrendState (α : Type) where
  base : AnomalyBase α
  magnitude : α
  invertTrend : Bool
  reverseTrend : Bool
  periodDuration : α

/-- `trendAnomaly.stepAnomaly`, generic in the hidden state `σ` of the
configured shaping function (`σ = Unit` for the pure registry entries,
`σ = WalkGlobals α` for `random_walk`). Returns the signal delta, the
updated anomaly and the updated shaping-function state. -/
def trendStepM {σ : Type} (f : α → α → α → σ → α × σ) (g : σ)
    (t : TrendState α) (Ts : α) : α × TrendState α × σ :=
  if t.base.off then (0, t, g) else
  let chk := checkAnomalyActive t.base Ts
  let b1 : AnomalyBase α := { chk.2 with isAnomalyActive := chk.1 }
  if chk.1 = false then
    (0, { t with base := { b1 with startDelayIndex := b1.startDelayIndex + 1 } }, g)
  else
    let b2 : AnomalyBase α :=
      { b1 with elapsedActivatedTime := (b1.elapsedActivatedIndex : α) * Ts,
                elapsedActivatedIndex := b1.elapsedActivatedIndex + 1 }
    let fr := f b2.elapsedActivatedTime t.magnitude t.periodDuration g
    let trendAnomalyMagnitude := fr.1
    let trendAnomalyDelta :=
      if t.reverseTrend && t.invertTrend then -(t.magnitude - trendAnomalyMagnitude)
      else if t.reverseTrend then t.magnitude - trendAnomalyMagnitude
      else if t.invertTrend then -trendAnomalyMagnitude
      else trendAnomalyMagnitude
    let b3 : AnomalyBase α :=
      if b2.elapsedActivatedIndex = goTrunc (b2.duration / Ts) then
        { b2 with elapsedActivatedIndex := 0, startDelayIndex := 0,
                  countRepeats := b2.countRepeats + 1 }
      else b2
    (trendAnomalyDelta, { t with base := b3 }, fr.2)

/-- `trendAnomaly.stepAnomaly(_ *rand.Rand, Ts)` with a pure shaping
function: the injected random source is ignored by the source (its
parameter is named `_`) and returned unchanged. -/
def trendStep (f : α → α → α → α) (r : Rand α) (t : TrendState α) (Ts : α) :
    α × TrendState α × Rand α :=
  let res := trendStepM (fun tt A T (u : Unit) => (f tt A T, u)) () t Ts
  (res.1, res.2.1, r)

/-- `linearRamp` (mathsfuncs.go): `y = (A/T)·t` via the slope `m = A/T`. -/
def linearRamp (t A T : α) : α :=
  let m := A / T
  m * t

/-- `spikeAnomaly` (spike variant): `AnomalyBase` plus magnitude, the
Gaussian-variation flag, the sign bias, the per-tick trigger probability
and the optional magnitude/probability shaping functions. -/
structure SpikeState (α : Type) where
  base : AnomalyBase α
  magnitude : α
  varyMagnitude : Bool
  spikeSign : α
  probability : α
  magFunc : Option (α → α → α → α)
  probFunc : Option (α → α → α → α)

/-- `spikeAnomaly.FetchProbability`: the per-tick trigger probability,
either the static probability or the absolute value of the probability
shaping function at the (already updated) elapsed activated time. -/
def fetchProbability (s : SpikeState α) : α :=
  match s.probFunc with
  | none => s.probability
  | some f => |f s.base.elapsedActivatedTime s.probability s.base.duration|

/-- `spikeAnomaly.getSign`: `-1` or `+1` from a uniform draw, biased by
`spikeSign`. -/
def getSign (s : SpikeState α) (r : Rand α) : α × Rand α :=
  let d := r.nextUniform
  (if d.1 * 2 - 1 > s.spikeSign then -1 else 1, d.2)

/-- `spikeAnomaly.stepAnomaly`: the change in signal caused by the spike
anomaly this timestep, threading the injected random source. -/
def spikeStep (r : Rand α) (s : SpikeState α) (Ts : α) :
    α × SpikeState α × Rand α :=
  if s.base.off then (0, s, r) else
  let chk := checkAnomalyActive s.base Ts
  let b1 : AnomalyBase α := { chk.2 with isAnomalyActive := chk.1 }
  if chk.1 = false then
    (0, { s with base := { b1 with startDelayIndex := b1.startDelayIndex + 1 } }, r)
  else
    let b2 : AnomalyBase α :=
      { b1 with elapsedActivatedTime := (b1.elapsedActivatedIndex : α) * Ts,
                elapsedActivatedIndex := b1.elapsedActivatedIndex + 1 }
    let d1 := r.nextUniform
    if d1.1 > fetchProbability { s with base := b2 } then
      (0, { s with base := { b2 with isAnomalyActive := false } }, d1.2)
    else
      let b2' : AnomalyBase α := { b2 with isAnomalyActive := true }
      let delta0 :=
        match s.magFunc with
        | none => s.magnitude
        | some f => f b2'.elapsedActivatedTime s.magnitude b2'.duration
      let sg := getSign { s with base := b2' } d1.2
      let delta1 := delta0 * sg.1
      let dv :=
        if s.varyMagnitude then
          let nd := sg.2.nextNormal
          (delta1 * nd.1, nd.2)
        else (delta1, sg.2)
      let b3 : AnomalyBase α :=
        if b2'.elapsedActivatedIndex ≥ goTrunc (b2'.duration / Ts) - 1 then
          { b2' with elapsedActivatedIndex := 0, startDelayIndex := 0,
                     countRepeats := b2'.countRepeats + 1 }
        else b2'
      (dv.1, { s with base := b3 }, dv.2)

/-- `spikeAnomaly.SetDuration`: `duration = 0` is remapped to the
"continuous burst" encoding `-1`, unless a magnitude shaping function is
configured, in which case construction fails. -/
def spikeSetDuration (s : SpikeState α) (duration : α) :
    Except String (SpikeState α) :=
  if duration = 0 then
    if s.magFunc.isSome then
      Except.error "duration must be greater than 0 when using a functional dependence for magntiude"
    else
      Except.ok { s with base := { s.base with duration := -1 } }
  else
    Except.ok { s with base := { s.base with duration := duration } }

/-- The spike anomaly base as it stands at the probability gate of
`spikeStep`: marked active, elapsed time logged, index advanced. -/
def spikeActiveBase (s : SpikeState α) (Ts : α) : AnomalyBase α :=
  { s.base with
      isAnomalyActive := true,
      elapsedActivatedTime := (s.base.elapsedActivatedIndex : α) * Ts,
      elapsedActivatedIndex := s.base.elapsedActivatedIndex + 1 }

/-- Iterated trend stepping: the anomaly state after `n` calls of
`stepAnomaly` with fixed random source and sampling period. -/
def trendRun (f : α → α → α → α) (r : Rand α) (Ts : α) (t : TrendState α) :
    ℕ → TrendState α
  | 0 => t
  | n + 1 => (trendStep f r (trendRun f r Ts t n) Ts).2.1

/-- The delta returned by the `(n+1)`-th call of `stepAnomaly` (0-indexed). -/
def trendOut (f : α → α → α → α) (r : Rand α) (Ts : α) (t : TrendState α)
    (n : ℕ) : α :=
  (trendStep f r (trendRun f r Ts t n) Ts).1

/-- Iterated spike stepping: anomaly state and random source after `n`
calls of `stepAnomaly`. -/
def spikeRun (Ts : α) (p : SpikeState α × Rand α) : ℕ → SpikeState α × Rand α
  | 0 => p
  | n + 1 =>
    let q := spikeRun Ts p n
    let res := spikeStep q.2 q.1 Ts
    (res.2.1, res.2.2)

/-- The delta returned by the `(n+1)`-th spike step (0-indexed). -/
def spikeOut (Ts : α) (p : SpikeState α × Rand α) (n : ℕ) : α :=
  (spikeStep (spikeRun Ts p n).2 (spikeRun Ts p n).1 Ts).1

/-- The state captured by the package-level `randomWalk` closure in
mathsfuncs.go: the remembered `previousValue` and the package-global
uniform draw stream (`rand.Float64`) it consumes.  In the source this is
one module-global closure instance, shared by every lookup of
`"random_walk"`. -/
structure WalkGlobals (α : Type) where
  previousValue : α
  draws : ℕ → α
  idx : ℕ

/-- `randomWalk` (mathsfuncs.go): bounded random walk with step factor 20;
if `t ≠ 0` the remembered value advances by `A/20·(draw·2 − 1)`, clamped
to `[−A, A]`; the remembered value is returned. -/
def randomWalkCall (t A _T : α) (g : WalkGlobals α) : α × WalkGlobals α :=
  if t ≠ 0 then
    let stepSize := A / 20 * (g.draws g.idx * 2 - 1)
    let proposedValue := g.previousValue + stepSize
    let newValue := min (max proposedValue (-A)) A
    (newValue, { g with previousValue := newValue, idx := g.idx + 1 })
  else
    (g.previousValue, g)

/-- Tags for the values stored in the `mathsFunctions` registry map
(mathsfuncs.go); the claims only need their identities. -/
inductive MFunc : Type where
  | linear
  | sine
  | cosine
  | exponential
  | exponentialFull
  | exponentialDecay
  | exponentialDecayFull
  | parabolic
  | stepFunction
  | lStepFunction
  | square
  | sawtooth
  | impulse
  | impulseVarying
  | randomNoise
  | gaussianNoise
  | exponentialNoise
  | randomWalkEntry
  | flat
  | warmupSine
deriving DecidableEq

/-- The `mathsFunctions` name→function map (mathsfuncs.go), as an
association list with the source's distinct keys. -/
def mathsFunctions : List (String × MFunc) :=
  [("linear", MFunc.linear),
   ("sine", MFunc.sine),
   ("cosine", MFunc.cosine),
   ("exponential", MFunc.exponential),
   ("exponential_full", MFunc.exponentialFull),
   ("exponential_decay", MFunc.exponentialDecay),
   ("exponential_decay_full", MFunc.exponentialDecayFull),
   ("parabolic", MFunc.parabolic),
   ("step", MFunc.stepFunction),
   ("Lstep", MFunc.lStepFunction),
   ("square", MFunc.square),
   ("sawtooth", MFunc.sawtooth),
   ("impulse", MFunc.impulse),
   ("impulse_varying", MFunc.impulseVarying),
   ("random_noise", MFunc.randomNoise),
   ("gaussian_noise", MFunc.gaussianNoise),
   ("exponential_noise", MFunc.exponentialNoise),
   ("random_walk", MFunc.randomWalkEntry),
   ("flat", MFunc.flat),
   ("warmup_sine", MFunc.warmupSine)]

/-- `GetTrendFunctionFromName` (mathsfuncs.go): map lookup; any name that
is not a key of the map — the empty string included — yields the error
`"trend function not found"`. -/
def GetTrendFunctionFromName (name : String) : Except String MFunc :=
  match mathsFunctions.lookup name with
  | some trendFunc => Except.ok trendFunc
  | none => Except.error "trend function not found"

/-- An anomaly as the name-keyed container sees it: only the name and type matter
to `AddAnomaly`/`GetAnomalyByName` (anomaly.go, name-based container). -/
structure NamedAnomaly : Type where
  name : String
  typeName : String
deriving DecidableEq

/-- `Container.GetAnomalyByName`: the first anomaly with the given name,
or `none`. -/
def GetAnomalyByName (c : List NamedAnomaly) (name : String) :
    Option NamedAnomaly :=
  match c with
  | [] => none
  | a :: rest => if a.name = name then some a else GetAnomalyByName rest name

/-- `Container.AddAnomaly`: rejects a duplicate name with an error (the
container is left untouched), otherwise appends the anomaly. -/
def AddAnomaly (c : List NamedAnomaly) (a : NamedAnomaly) :
    Except String (List NamedAnomaly) :=
  if (GetAnomalyByName c a.name).isSome then
    Except.error ("anomaly with name " ++ a.name ++ " already exists")
  else
    Except.ok (c ++ [a])

/-- An anomaly held by a container (`AnomalyInterface`): a trend anomaly
together with its resolved pure shaping function, or a spike anomaly. -/
inductive AnomalyI (α : Type) : Type where
  | trendA : TrendState α → (α → α → α → α) → AnomalyI α
  | spikeA : SpikeState α → AnomalyI α

/-- Dispatch of `stepAnomaly` over the anomaly variants. -/
def stepAnomalyI (r : Rand α) (a : AnomalyI α) (Ts : α) :
    α × AnomalyI α × Rand α :=
  match a with
  | AnomalyI.trendA t f =>
    let res := trendStep f r t Ts
    (res.1, AnomalyI.trendA res.2.1 f, res.2.2)
  | AnomalyI.spikeA s =>
    let res := spikeStep r s Ts
    (res.1, AnomalyI.spikeA res.2.1, res.2.2)

/-- `Container.StepAll` (anomaly.go): steps every member in order and
returns the sum of their deltas, the updated members and the random
source. -/
def stepAll (r : Rand α) (c : List (AnomalyI α)) (Ts : α) :
    α × List (AnomalyI α) × Rand α :=
  match c with
  | [] => (0, [], r)
  | a :: rest =>
    let res := stepAnomalyI r a Ts
    let rest' := stepAll res.2.2 rest Ts
    (res.1 + rest'.1, res.2.1 :: rest'.2.1, rest'.2.2)

end Emulator

namespace Emulator

/-- `TwoPiOverThree` (threephase.go). -/
noncomputable def TwoPiOverThree : ℝ := 2 * Real.pi / 3

/-- `wrapAngle` (threephase.go): subtracts `2π` from any angle above `π`;
all other angles — including those below `−π` — are returned unchanged. -/
noncomputable def wrapAngle (a : ℝ) : ℝ :=
  if a > Real.pi then a - 2 * Real.pi else a

/-- `ThreePhaseEmulation` (threephase.go): static parameters, the five
attached anomaly containers, fault/ramp state, the phase accumulator and
the three per-tick outputs. -/
structure ThreePhaseState : Type where
  PosSeqMag : ℝ
  PhaseOffset : ℝ
  NegSeqMag : ℝ
  NegSeqAng : ℝ
  ZeroSeqMag : ℝ
  ZeroSeqAng : ℝ
  HarmonicNumbers : List ℝ
  HarmonicMags : List ℝ
  HarmonicAngs : List ℝ
  NoiseMag : ℝ
  PosSeqMagAnomaly : List (AnomalyI ℝ)
  PosSeqAngAnomaly : List (AnomalyI ℝ)
  PhaseAMagAnomaly : List (AnomalyI ℝ)
  FreqAnomaly : List (AnomalyI ℝ)
  HarmonicsAnomaly : List (AnomalyI ℝ)
  FaultPhaseAMag : ℝ
  FaultPosSeqMag : ℝ
  FaultRemainingSamples : ℤ
  PosSeqMagNew : ℝ
  PosSeqMagRampRate : ℝ
  pAngle : ℝ
  A : ℝ
  B : ℝ
  C : ℝ

/-- The harmonics accumulation loop of `stepThreePhase`, over the zipped
`(number, magnitude, angle)` triples (the source indexes three arrays of
equal length): accumulates the A/B/C harmonic sums. -/
noncomputable def harmonicLoop (sinF : ℝ → ℝ) (items : List (ℝ × ℝ × ℝ))
    (PosSeqPhase posSeqMagField : ℝ) : ℝ × ℝ × ℝ :=
  items.foldl
    (fun acc x =>
      (acc.1 + sinF (x.1 * PosSeqPhase + x.2.2) * (x.2.1 * posSeqMagField),
       acc.2.1 + sinF (x.1 * (PosSeqPhase - TwoPiOverThree) + x.2.2) * (x.2.1 * posSeqMagField),
       acc.2.2 + sinF (x.1 * (PosSeqPhase + TwoPiOverThree) + x.2.2) * (x.2.1 * posSeqMagField)))
    (0, 0, 0)

/-- `ThreePhaseEmulation.stepThreePhase` (threephase.go), parameterised
over the external approximate sine `fast.Sin`.  Produces the updated
emulation state (outputs `A`, `B`, `C` included) and random source. -/
noncomputable def stepThreePhase (sinF : ℝ → ℝ) (r : Rand ℝ)
    (e : ThreePhaseState) (f Ts : ℝ) : ThreePhaseState × Rand ℝ :=
  let sFreq := stepAll r e.FreqAnomaly Ts
  let freqTotal := f + sFreq.1
  let angle := wrapAngle (freqTotal * 2 * Real.pi * Ts + e.pAngle)
  let sAng := stepAll sFreq.2.2 e.PosSeqAngAnomaly Ts
  let PosSeqPhase := e.PhaseOffset + angle + Real.pi * sAng.1 / 180
  let posSeqMagField :=
    if |e.PosSeqMagNew - e.PosSeqMag| ≥ |e.PosSeqMagRampRate| then
      e.PosSeqMag + e.PosSeqMagRampRate
    else e.PosSeqMag
  let posSeqMag1 :=
    if e.FaultRemainingSamples > 0 then posSeqMagField + e.FaultPosSeqMag
    else posSeqMagField
  let faultRem :=
    if e.FaultRemainingSamples > 0 then e.FaultRemainingSamples - 1
    else e.FaultRemainingSamples
  let sMag := stepAll sAng.2.2 e.PosSeqMagAnomaly Ts
  let posSeqMag := posSeqMag1 + sMag.1
  let sPhA := stepAll sMag.2.2 e.PhaseAMagAnomaly Ts
  let a1 := sinF PosSeqPhase * (posSeqMag + sPhA.1)
  let b1 := sinF (PosSeqPhase - TwoPiOverThree) * posSeqMag
  let c1 := sinF (PosSeqPhase + TwoPiOverThree) * posSeqMag
  let a2 := sinF (PosSeqPhase + e.NegSeqAng) * e.NegSeqMag * posSeqMagField
  let b2 := sinF (PosSeqPhase + TwoPiOverThree + e.NegSeqAng) * e.NegSeqMag * posSeqMagField
  let c2 := sinF (PosSeqPhase - TwoPiOverThree + e.NegSeqAng) * e.NegSeqMag * posSeqMagField
  let abc0 := sinF (PosSeqPhase + e.ZeroSeqAng) * e.ZeroSeqMag * posSeqMagField
  let hRaw :=
    if 0 < e.HarmonicNumbers.length ∧
        e.HarmonicNumbers.length = e.HarmonicMags.length ∧
        e.HarmonicNumbers.length = e.HarmonicAngs.length then
      harmonicLoop sinF (e.HarmonicNumbers.zip (e.HarmonicMags.zip e.HarmonicAngs))
        PosSeqPhase posSeqMagField
    else (0, 0, 0)
  let sHarm := stepAll sPhA.2.2 e.HarmonicsAnomaly Ts
  let ah := hRaw.1 * (1 + sHarm.1)
  let bh := hRaw.2.1 * (1 + sHarm.1)
  let ch := hRaw.2.2 * (1 + sHarm.1)
  let nA := sHarm.2.2.nextNormal
  let nB := nA.2.nextNormal
  let nC := nB.2.nextNormal
  let ra := nA.1 * e.NoiseMag * posSeqMagField
  let rb := nB.1 * e.NoiseMag * posSeqMagField
  let rc := nC.1 * e.NoiseMag * posSeqMagField
  ({ e with
      pAngle := angle,
      PosSeqMag := posSeqMagField,
      FaultRemainingSamples := faultRem,
      FreqAnomaly := sFreq.2.1,
      PosSeqAngAnomaly := sAng.2.1,
      PosSeqMagAnomaly := sMag.2.1,
      PhaseAMagAnomaly := sPhA.2.1,
      HarmonicsAnomaly := sHarm.2.1,
      A := a1 + a2 + abc0 + ah + ra,
      B := b1 + b2 + abc0 + bh + rb,
      C := c1 + c2 + abc0 + ch + rc }, nC.2)

/-- The three harmonic parameter arrays all have equal length. -/
def goodHarmonics (e : ThreePhaseState) : Prop :=
  e.HarmonicNumbers.length = e.HarmonicMags.length ∧
  e.HarmonicNumbers.length = e.HarmonicAngs.length

/-- `e` with its harmonic parameter arrays emptied (harmonics absent). -/
def stripHarmonics (e : ThreePhaseState) : ThreePhaseState :=
  { e with HarmonicNumbers := [], HarmonicMags := [], HarmonicAngs := [] }

/-- Observation: the `PosSeqPhase` value computed inside
`stepThreePhase` for these inputs. -/
noncomputable def tpPosSeqPhase (r : Rand ℝ) (e : ThreePhaseState) (f Ts : ℝ) : ℝ :=
  let sFreq := stepAll r e.FreqAnomaly Ts
  let angle := wrapAngle ((f + sFreq.1) * 2 * Real.pi * Ts + e.pAngle)
  let sAng := stepAll sFreq.2.2 e.PosSeqAngAnomaly Ts
  e.PhaseOffset + angle + Real.pi * sAng.1 / 180

/-- Observation: the ramped `e.PosSeqMag` field value used by the
negative/zero-sequence, harmonic and noise terms of `stepThreePhase`. -/
noncomputable def tpPosSeqMagField (e : ThreePhaseState) : ℝ :=
  if |e.PosSeqMagNew - e.PosSeqMag| ≥ |e.PosSeqMagRampRate| then
    e.PosSeqMag + e.PosSeqMagRampRate
  else e.PosSeqMag

/-- Observation: the harmonics-anomaly container delta (`harmonicsScale`)
drawn inside `stepThreePhase` for these inputs. -/
noncomputable def tpHarmScale (r : Rand ℝ) (e : ThreePhaseState) (Ts : ℝ) : ℝ :=
  let sFreq := stepAll r e.FreqAnomaly Ts
  let sAng := stepAll sFreq.2.2 e.PosSeqAngAnomaly Ts
  let sMag := stepAll sAng.2.2 e.PosSeqMagAnomaly Ts
  let sPhA := stepAll sMag.2.2 e.PhaseAMagAnomaly Ts
  (stepAll sPhA.2.2 e.HarmonicsAnomaly Ts).1

/-- Modelled from the spec (§4.6 step 5): `pos_seq_mag_effective`, the
ramped magnitude plus the active fault offset plus the positive-sequence
magnitude anomaly delta. -/
noncomputable def tpPosSeqMagEffective (r : Rand ℝ) (e : ThreePhaseState) (Ts : ℝ) : ℝ :=
  let ramped := tpPosSeqMagField e
  let faulted :=
    if e.FaultRemainingSamples > 0 then ramped + e.FaultPosSeqMag else ramped
  let sFreq := stepAll r e.FreqAnomaly Ts
  let sAng := stepAll sFreq.2.2 e.PosSeqAngAnomaly Ts
  let sMag := stepAll sAng.2.2 e.PosSeqMagAnomaly Ts
  faulted + sMag.1

/-- Modelled from the spec (§4.6 step 8): the phase-A harmonic sum
`Σ sin(n·pos_seq_phase + angle)·(harmonic_magnitude·pos_seq_mag_effective)`
over the harmonic triples. -/
noncomputable def specHarmonicSumA (sinF : ℝ → ℝ) (items : List (ℝ × ℝ × ℝ))
    (posSeqPhase posSeqMagEffective : ℝ) : ℝ :=
  items.foldl
    (fun acc x => acc + sinF (x.1 * posSeqPhase + x.2.2) * (x.2.1 * posSeqMagEffective))
    0

/-- The tail of `stepThreePhase` with the raw harmonic sums `hRaw` as a
parameter (the source computes `ah`, `bh`, `ch` and then proceeds with
them); `stepThreePhase` is definitionally this applied to the guarded
harmonic loop. -/
noncomputable def stepThreePhaseAux (sinF : ℝ → ℝ) (r : Rand ℝ)
    (e : ThreePhaseState) (f Ts : ℝ) (hRaw : ℝ × ℝ × ℝ) :
    ThreePhaseState × Rand ℝ :=
  let sFreq := stepAll r e.FreqAnomaly Ts
  let freqTotal := f + sFreq.1
  let angle := wrapAngle (freqTotal * 2 * Real.pi * Ts + e.pAngle)
  let sAng := stepAll sFreq.2.2 e.PosSeqAngAnomaly Ts
  let PosSeqPhase := e.PhaseOffset + angle + Real.pi * sAng.1 / 180
  let posSeqMagField :=
    if |e.PosSeqMagNew - e.PosSeqMag| ≥ |e.PosSeqMagRampRate| then
      e.PosSeqMag + e.PosSeqMagRampRate
    else e.PosSeqMag
  let posSeqMag1 :=
    if e.FaultRemainingSamples > 0 then posSeqMagField + e.FaultPosSeqMag
    else posSeqMagField
  let faultRem :=
    if e.FaultRemainingSamples > 0 then e.FaultRemainingSamples - 1
    else e.FaultRemainingSamples
  let sMag := stepAll sAng.2.2 e.PosSeqMagAnomaly Ts
  let posSeqMag := posSeqMag1 + sMag.1
  let sPhA := stepAll sMag.2.2 e.PhaseAMagAnomaly Ts
  let a1 := sinF PosSeqPhase * (posSeqMag + sPhA.1)
  let b1 := sinF (PosSeqPhase - TwoPiOverThree) * posSeqMag
  let c1 := sinF (PosSeqPhase + TwoPiOverThree) * posSeqMag
  let a2 := sinF (PosSeqPhase + e.NegSeqAng) * e.NegSeqMag * posSeqMagField
  let b2 := sinF (PosSeqPhase + TwoPiOverThree + e.NegSeqAng) * e.NegSeqMag * posSeqMagField
  let c2 := sinF (PosSeqPhase - TwoPiOverThree + e.NegSeqAng) * e.NegSeqMag * posSeqMagField
  let abc0 := sinF (PosSeqPhase + e.ZeroSeqAng) * e.ZeroSeqMag * posSeqMagField
  let sHarm := stepAll sPhA.2.2 e.HarmonicsAnomaly Ts
  let ah := hRaw.1 * (1 + sHarm.1)
  let bh := hRaw.2.1 * (1 + sHarm.1)
  let ch := hRaw.2.2 * (1 + sHarm.1)
  let nA := sHarm.2.2.nextNormal
  let nB := nA.2.nextNormal
  let nC := nB.2.nextNormal
  let ra := nA.1 * e.NoiseMag * posSeqMagField
  let rb := nB.1 * e.NoiseMag * posSeqMagField
  let rc := nC.1 * e.NoiseMag * posSeqMagField
  ({ e with
      pAngle := angle,
      PosSeqMag := posSeqMagField,
      FaultRemainingSamples := faultRem,
      FreqAnomaly := sFreq.2.1,
      PosSeqAngAnomaly := sAng.2.1,
      PosSeqMagAnomaly := sMag.2.1,
      PhaseAMagAnomaly := sPhA.2.1,
      HarmonicsAnomaly := sHarm.2.1,
      A := a1 + a2 + abc0 + ah + ra,
      B := b1 + b2 + abc0 + bh + rb,
      C := c1 + c2 + abc0 + ch + rc }, nC.2)

/-- A concrete random source over ℚ (all draws zero). -/
def rand0 : Rand ℚ := ⟨fun _ => 0, fun _ => 0, 0, 0⟩

/-- A concrete random source over ℝ (all draws zero). -/
def randR0 : Rand ℝ := ⟨fun _ => 0, fun _ => 0, 0, 0⟩

/-- A fresh trend anomaly as built for the concrete checks of C1:
magnitude 10, duration 5 s, start delay 0, one repeat, with the period
duration defaulted to the duration (`SetPeriodDuration(0)`). -/
def trendC1 (inv rev : Bool) : TrendState ℚ :=
  { base :=
      { repeats := 1, off := false, startDelay := 0, duration := 5,
        isAnomalyActive := false, startDelayIndex := 0,
        elapsedActivatedIndex := 0, elapsedActivatedTime := 0,
        countRepeats := 0 },
    magnitude := 10, invertTrend := inv, reverseTrend := rev,
    periodDuration := 5 }

/-- A fresh spike anomaly with one repeat, duration 2 s, probability 1. -/
def spikeRepeatOnce : SpikeState ℚ :=
  { base := { repeats := 1, off := false, startDelay := 0, duration := 2,
              isAnomalyActive := false, startDelayIndex := 0,
              elapsedActivatedIndex := 0, elapsedActivatedTime := 0,
              countRepeats := 0 },
    magnitude := 3, varyMagnitude := false, spikeSign := 0, probability := 1,
    magFunc := none, probFunc := none }

/-- A spike anomaly configuration as requested with `Duration: 0`:
probability 1 (always triggers), magnitude 5, no shaping functions,
infinite repeats, zero start delay. -/
def spikeContinuousPre : SpikeState ℚ :=
  { base := { repeats := 0, off := false, startDelay := 0, duration := 0,
              isAnomalyActive := false, startDelayIndex := 0,
              elapsedActivatedIndex := 0, elapsedActivatedTime := 0,
              countRepeats := 0 },
    magnitude := 5, varyMagnitude := false, spikeSign := 0, probability := 1,
    magFunc := none, probFunc := none }

/-- `spikeContinuousPre` after `SetDuration(0)`: duration encoded as `-1`
("continuous burst"). -/
def spikeContinuous : SpikeState ℚ :=
  { spikeContinuousPre with
      base := { spikeContinuousPre.base with duration := -1 } }

/-- A finite-duration spike (duration 5 s) three triggered ticks into its
burst: `elapsedActivatedIndex = 3`, always triggering (probability 1). -/
def spikeAtWrap : SpikeState ℚ :=
  { base := { repeats := 0, off := false, startDelay := 0, duration := 5,
              isAnomalyActive := false, startDelayIndex := 0,
              elapsedActivatedIndex := 3, elapsedActivatedTime := 0,
              countRepeats := 0 },
    magnitude := 5, varyMagnitude := false, spikeSign := 0, probability := 1,
    magFunc := none, probFunc := none }

/-- A trend anomaly one tick into its burst (elapsed time `1·Ts ≠ 0`),
as used by the shared random-walk interference scenario. -/
def trendWalk : TrendState ℚ :=
  { base :=
      { repeats := 0, off := false, startDelay := 0, duration := 5,
        isAnomalyActive := true, startDelayIndex := 0,
        elapsedActivatedIndex := 1, elapsedActivatedTime := 0,
        countRepeats := 0 },
    magnitude := 10, invertTrend := false, reverseTrend := false,
    periodDuration := 5 }

/-- The shared random-walk globals: previous value 0, package-global
uniform draws all equal to 1. -/
def walkG : WalkGlobals ℚ := ⟨0, fun _ => 1, 0⟩

/-- A concrete three-phase state: unit positive-sequence magnitude, one
first-harmonic entry of unit relative magnitude, an active fault offset of
1 for one remaining sample, no anomalies, no noise. -/
def threePhaseC9 : ThreePhaseState :=
  { PosSeqMag := 1, PhaseOffset := 0, NegSeqMag := 0, NegSeqAng := 0,
    ZeroSeqMag := 0, ZeroSeqAng := 0,
    HarmonicNumbers := [1], HarmonicMags := [1], HarmonicAngs := [0],
    NoiseMag := 0,
    PosSeqMagAnomaly := [], PosSeqAngAnomaly := [], PhaseAMagAnomaly := [],
    FreqAnomaly := [], HarmonicsAnomaly := [],
    FaultPhaseAMag := 0, FaultPosSeqMag := 1, FaultRemainingSamples := 1,
    PosSeqMagNew := 1, PosSeqMagRampRate := 0,
    pAngle := 0, A := 0, B := 0, C := 0 }

end Emulator

unseal Rat.add Rat.mul Rat.inv Rat.sub

namespace Emulator

variable {α : Type} [LinearOrderedField α] [FloorRing α]

lemma trendStep_off (f : α → α → α → α) (r : Rand α) (t : TrendState α) (Ts : α)
    (h : t.base.off = true) : trendStep f r t Ts = (0, t, r) := by
  simp [trendStep, trendStepM, h]

lemma trendStep_repeats (f : α → α → α → α) (r : Rand α) (t : TrendState α) (Ts : α) :
    (trendStep f r t Ts).2.1.base.repeats = t.base.repeats := by
  by_cases hoff : t.base.off = true
  · simp [trendStep, trendStepM, hoff]
  · by_cases hmore : (t.base.countRepeats < t.base.repeats ∨ t.base.repeats = 0)
    · by_cases hstart : (t.base.startDelayIndex ≥ goTrunc (t.base.startDelay / Ts) - 1)
      · by_cases hreset : (t.base.elapsedActivatedIndex + 1 = goTrunc (t.base.duration / Ts))
        · simp [trendStep, trendStepM, checkAnomalyActive, hoff, hmore, hstart, hreset]
        · simp [trendStep, trendStepM, checkAnomalyActive, hoff, hmore, hstart, hreset]
      · simp [trendStep, trendStepM, checkAnomalyActive, hoff, hmore, hstart]
    · simp [trendStep, trendStepM, checkAnomalyActive, hoff, hmore]

lemma trendStep_exhausted (f : α → α → α → α) (r : Rand α) (t : TrendState α) (Ts : α)
    (h : t.base.off = false) (h0 : t.base.repeats ≠ 0)
    (hc : t.base.repeats ≤ t.base.countRepeats) :
    (trendStep f r t Ts).1 = 0 ∧
    (trendStep f r t Ts).2.1.base.off = true ∧
    (trendStep f r t Ts).2.1.base.countRepeats = t.base.countRepeats ∧
    (trendStep f r t Ts).2.1.base.repeats = t.base.repeats := by
  have hcond : ¬(t.base.countRepeats < t.base.repeats ∨ t.base.repeats = 0) := by
    push_neg
    exact ⟨hc, h0⟩
  simp [trendStep, trendStepM, checkAnomalyActive, h, hcond]

lemma trendStep_countRepeats_le (f : α → α → α → α) (r : Rand α) (t : TrendState α) (Ts : α)
    (h0 : t.base.repeats ≠ 0) (h : t.base.countRepeats ≤ t.base.repeats) :
    (trendStep f r t Ts).2.1.base.countRepeats ≤ t.base.repeats := by
  by_cases hoff : t.base.off = true
  · simp [trendStep, trendStepM, hoff, h]
  · by_cases hmore : (t.base.countRepeats < t.base.repeats ∨ t.base.repeats = 0)
    · by_cases hstart : (t.base.startDelayIndex ≥ goTrunc (t.base.startDelay / Ts) - 1)
      · by_cases hreset : (t.base.elapsedActivatedIndex + 1 = goTrunc (t.base.duration / Ts))
        · simp [trendStep, trendStepM, checkAnomalyActive, hoff, hmore, hstart, hreset]
          omega
        · simp [trendStep, trendStepM, checkAnomalyActive, hoff, hmore, hstart, hreset, h]
      · simp [trendStep, trendStepM, checkAnomalyActive, hoff, hmore, hstart, h]
    · simp [trendStep, trendStepM, checkAnomalyActive, hoff, hmore, h]

lemma spikeStep_off (r : Rand α) (s : SpikeState α) (Ts : α)
    (h : s.base.off = true) : spikeStep r s Ts = (0, s, r) := by
  simp [spikeStep, h]

lemma spikeStep_repeats (r : Rand α) (s : SpikeState α) (Ts : α) :
    (spikeStep r s Ts).2.1.base.repeats = s.base.repeats := by
  obtain ⟨⟨rep, off, sd, dur, act, sdi, eai, eat, cr⟩, mag, vary, sign, prob, mf, pf⟩ := s
  cases off
  case true => simp [spikeStep]
  case false =>
  by_cases hmore : (cr < rep ∨ rep = 0)
  · by_cases hstart : (sdi ≥ goTrunc (sd / Ts) - 1)
    · by_cases htrig : (r.u r.ui >
        fetchProbability ⟨⟨rep, false, sd, dur, true, sdi, eai + 1, (eai : α) * Ts, cr⟩, mag, vary, sign, prob, mf, pf⟩)
      · simp [spikeStep, checkAnomalyActive, Rand.nextUniform, hmore, hstart, htrig]
      · by_cases hreset : (eai + 1 ≥ goTrunc (dur / Ts) - 1)
        · simp [spikeStep, checkAnomalyActive, Rand.nextUniform, hmore, hstart, htrig, hreset]
        · simp [spikeStep, checkAnomalyActive, Rand.nextUniform, hmore, hstart, htrig, hreset]
    · simp [spikeStep, checkAnomalyActive, hmore, hstart]
  · simp [spikeStep, checkAnomalyActive, hmore]

lemma spikeStep_exhausted (r : Rand α) (s : SpikeState α) (Ts : α)
    (h : s.base.off = false) (h0 : s.base.repeats ≠ 0)
    (hc : s.base.repeats ≤ s.base.countRepeats) :
    (spikeStep r s Ts).1 = 0 ∧
    (spikeStep r s Ts).2.1.base.off = true ∧
    (spikeStep r s Ts).2.1.base.countRepeats = s.base.countRepeats ∧
    (spikeStep r s Ts).2.1.base.repeats = s.base.repeats := by
  have hcond : ¬(s.base.countRepeats < s.base.repeats ∨ s.base.repeats = 0) := by
    push_neg
    exact ⟨hc, h0⟩
  simp [spikeStep, checkAnomalyActive, h, hcond]

lemma spikeStep_countRepeats_le (r : Rand α) (s : SpikeState α) (Ts : α)
    (h0 : s.base.repeats ≠ 0) (h : s.base.countRepeats ≤ s.base.repeats) :
    (spikeStep r s Ts).2.1.base.countRepeats ≤ s.base.repeats := by
  obtain ⟨⟨rep, off, sd, dur, act, sdi, eai, eat, cr⟩, mag, vary, sign, prob, mf, pf⟩ := s
  simp only at h0 h ⊢
  cases off
  case true => simp [spikeStep, h]
  case false =>
  by_cases hmore : (cr < rep ∨ rep = 0)
  · by_cases hstart : (sdi ≥ goTrunc (sd / Ts) - 1)
    · by_cases htrig : (r.u r.ui >
        fetchProbability ⟨⟨rep, false, sd, dur, true, sdi, eai + 1, (eai : α) * Ts, cr⟩, mag, vary, sign, prob, mf, pf⟩)
      · simp [spikeStep, checkAnomalyActive, Rand.nextUniform, hmore, hstart, htrig, h]
      · by_cases hreset : (eai + 1 ≥ goTrunc (dur / Ts) - 1)
        · simp [spikeStep, checkAnomalyActive, Rand.nextUniform, hmore, hstart, htrig, hreset]
          omega
        · simp [spikeStep, checkAnomalyActive, Rand.nextUniform, hmore, hstart, htrig, hreset, h]
    · simp [spikeStep, checkAnomalyActive, hmore, hstart, h]
  · simp [spikeStep, checkAnomalyActive, hmore, h]

lemma lookup_eq_none_of_not_mem_keys {β : Type} (l : List (String × β)) (name : String)
    (h : name ∉ l.map Prod.fst) : l.lookup name = none := by
  induction l with
  | nil => rfl
  | cons a tl ih =>
    simp only [List.map_cons, List.mem_cons] at h
    push_neg at h
    have hne : (name == a.1) = false := beq_eq_false_iff_ne.2 h.1
    simp [List.lookup, hne, ih h.2]

lemma getAnomalyByName_isSome (c : List NamedAnomaly) (nm : String) :
    (GetAnomalyByName c nm).isSome = true ↔ ∃ b ∈ c, b.name = nm := by
  induction c with
  | nil => simp [GetAnomalyByName]
  | cons a tl ih =>
    by_cases he : a.name = nm
    · simp [GetAnomalyByName, he]
    · simp [GetAnomalyByName, he, ih]

lemma stepThreePhase_eq_aux (sinF : ℝ → ℝ) (r : Rand ℝ) (e : ThreePhaseState) (f Ts : ℝ) :
    stepThreePhase sinF r e f Ts =
      stepThreePhaseAux sinF r e f Ts
        (if 0 < e.HarmonicNumbers.length ∧
            e.HarmonicNumbers.length = e.HarmonicMags.length ∧
            e.HarmonicNumbers.length = e.HarmonicAngs.length then
          harmonicLoop sinF (e.HarmonicNumbers.zip (e.HarmonicMags.zip e.HarmonicAngs))
            (tpPosSeqPhase r e f Ts) (tpPosSeqMagField e)
        else (0, 0, 0)) := rfl

lemma stepThreePhaseAux_strip (sinF : ℝ → ℝ) (r : Rand ℝ) (e : ThreePhaseState)
    (f Ts : ℝ) (x : ℝ × ℝ × ℝ) :
    stepThreePhaseAux sinF r (stripHarmonics e) f Ts x =
      ({ (stepThreePhaseAux sinF r e f Ts x).1 with
          HarmonicNumbers := [], HarmonicMags := [], HarmonicAngs := [] },
        (stepThreePhaseAux sinF r e f Ts x).2) := rfl

lemma stepThreePhaseAux_A (sinF : ℝ → ℝ) (r : Rand ℝ) (e : ThreePhaseState)
    (f Ts : ℝ) (x : ℝ × ℝ × ℝ) :
    (stepThreePhaseAux sinF r e f Ts x).1.A =
      (stepThreePhaseAux sinF r e f Ts (0, 0, 0)).1.A +
        x.1 * (1 + tpHarmScale r e Ts) := by
  simp only [stepThreePhaseAux, tpHarmScale]
  ring

lemma stepThreePhaseAux_B (sinF : ℝ → ℝ) (r : Rand ℝ) (e : ThreePhaseState)
    (f Ts : ℝ) (x : ℝ × ℝ × ℝ) :
    (stepThreePhaseAux sinF r e f Ts x).1.B =
      (stepThreePhaseAux sinF r e f Ts (0, 0, 0)).1.B +
        x.2.1 * (1 + tpHarmScale r e Ts) := by
  simp only [stepThreePhaseAux, tpHarmScale]
  ring

lemma stepThreePhaseAux_C (sinF : ℝ → ℝ) (r : Rand ℝ) (e : ThreePhaseState)
    (f Ts : ℝ) (x : ℝ × ℝ × ℝ) :
    (stepThreePhaseAux sinF r e f Ts x).1.C =
      (stepThreePhaseAux sinF r e f Ts (0, 0, 0)).1.C +
        x.2.2 * (1 + tpHarmScale r e Ts) := by
  simp only [stepThreePhaseAux, tpHarmScale]
  ring

end Emulator

namespace Emulator

variable {α : Type} [LinearOrderedField α] [FloorRing α]

/-- Claim C1: for a trend anomaly with the linear shaping function,
`magnitude = 10`, `duration = 5 s`, `Ts = 1 s`, `start_delay = 0` and one
repeat, stepping through the full burst yields `[0,2,4,6,8]` for
`invert=false, reverse=false`; every sample negated for `invert=true`;
`magnitude − value`, i.e. `[10,8,6,4,2]`, for `reverse=true`; and
`−(magnitude − value)` when both are set.  In every case the output is `0`
on the tick after `duration/Ts` steps, and the repeat counter increments
exactly once, at the completion of the burst. -/
theorem trend_linear_burst_sequences :
    ((List.range 6).map (trendOut linearRamp rand0 1 (trendC1 false false)) =
        [0, 2, 4, 6, 8, 0] ∧
      (List.range 6).map (trendOut linearRamp rand0 1 (trendC1 true false)) =
        [0, -2, -4, -6, -8, 0] ∧
      (List.range 6).map (trendOut linearRamp rand0 1 (trendC1 false true)) =
        [10, 8, 6, 4, 2, 0] ∧
      (List.range 6).map (trendOut linearRamp rand0 1 (trendC1 true true)) =
        [-10, -8, -6, -4, -2, 0]) ∧
    ∀ inv rev : Bool,
      (List.range 7).map
          (fun n => (trendRun linearRamp rand0 1 (trendC1 inv rev) n).base.countRepeats) =
        [0, 0, 0, 0, 0, 1, 1] := by
  refine ⟨⟨by decide, by decide, by decide, by decide⟩, ?_⟩
  intro inv rev
  cases inv <;> cases rev <;> decide

/-- Claim C10: the trend anomaly step ignores the injected random source
(its parameter is `_` in the source): stepping with any two random
sources produces the same delta and the same post-state, for every
anomaly state, pure shaping function and tick period. -/
theorem trend_step_ignores_rand (f : α → α → α → α) (r₁ r₂ : Rand α)
    (t : TrendState α) (Ts : α) :
    (trendStep f r₁ t Ts).1 = (trendStep f r₂ t Ts).1 ∧
    (trendStep f r₁ t Ts).2.1 = (trendStep f r₂ t Ts).2.1 :=
  ⟨rfl, rfl⟩

/-- Claim C2: for a trend or spike anomaly configured with
`repeats = N > 0`, not initially off and with a fresh repeat counter, the
repeat counter never exceeds `N` over any run, and from any point where it
has reached `N`: the next step switches the anomaly off and every step
from that point on returns `0`. -/
theorem anomaly_repeat_limit (f : α → α → α → α) (r : Rand α) (Ts : α)
    (t0 : TrendState α) (p0 : SpikeState α × Rand α) (N : ℕ) (hN : 0 < N) :
    (t0.base.repeats = N → t0.base.countRepeats = 0 → t0.base.off = false →
      (∀ n, (trendRun f r Ts t0 n).base.countRepeats ≤ N) ∧
      (∀ n, (trendRun f r Ts t0 n).base.countRepeats = N →
        (trendRun f r Ts t0 (n + 1)).base.off = true ∧
        ∀ m, n ≤ m → trendOut f r Ts t0 m = 0)) ∧
    ((p0.1).base.repeats = N → (p0.1).base.countRepeats = 0 → (p0.1).base.off = false →
      (∀ n, (spikeRun Ts p0 n).1.base.countRepeats ≤ N) ∧
      (∀ n, (spikeRun Ts p0 n).1.base.countRepeats = N →
        (spikeRun Ts p0 (n + 1)).1.base.off = true ∧
        ∀ m, n ≤ m → spikeOut Ts p0 m = 0)) := by
  have hNe : N ≠ 0 := Nat.pos_iff_ne_zero.1 hN
  constructor
  · intro hrep hc0 _
    have inv : ∀ n, (trendRun f r Ts t0 n).base.repeats = N ∧
        (trendRun f r Ts t0 n).base.countRepeats ≤ N := by
      intro n
      induction n with
      | zero => exact ⟨hrep, by simp [trendRun, hc0]⟩
      | succ k ih =>
        constructor
        · show (trendStep f r (trendRun f r Ts t0 k) Ts).2.1.base.repeats = N
          rw [trendStep_repeats]
          exact ih.1
        · show (trendStep f r (trendRun f r Ts t0 k) Ts).2.1.base.countRepeats ≤ N
          have hle := trendStep_countRepeats_le f r (trendRun f r Ts t0 k) Ts
            (by rw [ih.1]; exact hNe) (by rw [ih.1]; exact ih.2)
          rwa [ih.1] at hle
    refine ⟨fun n => (inv n).2, ?_⟩
    intro n hn
    have hnext : (trendRun f r Ts t0 (n + 1)).base.off = true := by
      by_cases hoffn : (trendRun f r Ts t0 n).base.off = true
      · show (trendStep f r (trendRun f r Ts t0 n) Ts).2.1.base.off = true
        rw [trendStep_off f r _ Ts hoffn]
        exact hoffn
      · have hx := trendStep_exhausted f r (trendRun f r Ts t0 n) Ts
          (by simpa using hoffn) (by rw [(inv n).1]; exact hNe)
          (by rw [(inv n).1, hn])
        exact hx.2.1
    have offs : ∀ k, (trendRun f r Ts t0 (n + k + 1)).base.off = true := by
      intro k
      induction k with
      | zero => simpa using hnext
      | succ j ih =>
        show (trendStep f r (trendRun f r Ts t0 (n + j + 1)) Ts).2.1.base.off = true
        rw [trendStep_off f r _ Ts ih]
        exact ih
    refine ⟨hnext, ?_⟩
    intro m hm
    rcases Nat.exists_eq_add_of_le hm with ⟨k, rfl⟩
    cases k with
    | zero =>
      by_cases hoffn : (trendRun f r Ts t0 n).base.off = true
      · show (trendStep f r (trendRun f r Ts t0 (n + 0)) Ts).1 = 0
        rw [Nat.add_zero, trendStep_off f r _ Ts hoffn]
      · have hx := trendStep_exhausted f r (trendRun f r Ts t0 n) Ts
          (by simpa using hoffn) (by rw [(inv n).1]; exact hNe)
          (by rw [(inv n).1, hn])
        show (trendStep f r (trendRun f r Ts t0 (n + 0)) Ts).1 = 0
        rw [Nat.add_zero]
        exact hx.1
    | succ j =>
      show (trendStep f r (trendRun f r Ts t0 (n + (j + 1))) Ts).1 = 0
      have hoffm := offs j
      have hidx : n + (j + 1) = n + j + 1 := by omega
      rw [hidx, trendStep_off f r _ Ts hoffm]
  · intro hrep hc0 _
    have inv : ∀ n, (spikeRun Ts p0 n).1.base.repeats = N ∧
        (spikeRun Ts p0 n).1.base.countRepeats ≤ N := by
      intro n
      induction n with
      | zero => exact ⟨hrep, by simp [spikeRun, hc0]⟩
      | succ k ih =>
        constructor
        · show (spikeStep (spikeRun Ts p0 k).2 (spikeRun Ts p0 k).1 Ts).2.1.base.repeats = N
          rw [spikeStep_repeats]
          exact ih.1
        · show (spikeStep (spikeRun Ts p0 k).2 (spikeRun Ts p0 k).1 Ts).2.1.base.countRepeats ≤ N
          have hle := spikeStep_countRepeats_le (spikeRun Ts p0 k).2 (spikeRun Ts p0 k).1 Ts
            (by rw [ih.1]; exact hNe) (by rw [ih.1]; exact ih.2)
          rwa [ih.1] at hle
    refine ⟨fun n => (inv n).2, ?_⟩
    intro n hn
    have hnext : (spikeRun Ts p0 (n + 1)).1.base.off = true := by
      by_cases hoffn : (spikeRun Ts p0 n).1.base.off = true
      · show (spikeStep (spikeRun Ts p0 n).2 (spikeRun Ts p0 n).1 Ts).2.1.base.off = true
        rw [spikeStep_off _ _ Ts hoffn]
        exact hoffn
      · have hx := spikeStep_exhausted (spikeRun Ts p0 n).2 (spikeRun Ts p0 n).1 Ts
          (by simpa using hoffn) (by rw [(inv n).1]; exact hNe)
          (by rw [(inv n).1, hn])
        exact hx.2.1
    have offs : ∀ k, (spikeRun Ts p0 (n + k + 1)).1.base.off = true := by
      intro k
      induction k with
      | zero => simpa using hnext
      | succ j ih =>
        show (spikeStep (spikeRun Ts p0 (n + j + 1)).2 (spikeRun Ts p0 (n + j + 1)).1 Ts).2.1.base.off = true
        rw [spikeStep_off _ _ Ts ih]
        exact ih
    refine ⟨hnext, ?_⟩
    intro m hm
    rcases Nat.exists_eq_add_of_le hm with ⟨k, rfl⟩
    cases k with
    | zero =>
      by_cases hoffn : (spikeRun Ts p0 n).1.base.off = true
      · show (spikeStep (spikeRun Ts p0 (n + 0)).2 (spikeRun Ts p0 (n + 0)).1 Ts).1 = 0
        rw [Nat.add_zero, spikeStep_off _ _ Ts hoffn]
      · have hx := spikeStep_exhausted (spikeRun Ts p0 n).2 (spikeRun Ts p0 n).1 Ts
          (by simpa using hoffn) (by rw [(inv n).1]; exact hNe)
          (by rw [(inv n).1, hn])
        show (spikeStep (spikeRun Ts p0 (n + 0)).2 (spikeRun Ts p0 (n + 0)).1 Ts).1 = 0
        rw [Nat.add_zero]
        exact hx.1
    | succ j =>
      show (spikeStep (spikeRun Ts p0 (n + (j + 1))).2 (spikeRun Ts p0 (n + (j + 1))).1 Ts).1 = 0
      have hoffm := offs j
      have hidx : n + (j + 1) = n + j + 1 := by omega
      rw [hidx, spikeStep_off _ _ Ts hoffm]

/-- Witness for C2: the repeat-count bound and the switch-off behaviour,
evaluated on a concrete trend anomaly (one repeat, five-tick burst) and a
concrete spike anomaly (one repeat, probability 1). -/
theorem anomaly_repeat_limit_witness :
    (trendRun linearRamp rand0 1 (trendC1 false false) 7).base.countRepeats ≤ 1 ∧
    (spikeRun 1 (spikeRepeatOnce, rand0) 7).1.base.countRepeats ≤ 1 := by
  have h := anomaly_repeat_limit linearRamp rand0 1 (trendC1 false false)
    (spikeRepeatOnce, rand0) 1 (by decide)
  exact ⟨(h.1 (by decide) (by decide) (by decide)).1 7,
         (h.2 (by decide) (by decide) (by decide)).1 7⟩

end Emulator

namespace Emulator

variable {α : Type} [LinearOrderedField α] [FloorRing α]

/-- Claim C3 (failing input evaluated): constructing a spike anomaly with
`duration = 0` does remap the duration to the continuous encoding `-1`,
but stepping the resulting continuous spike on a triggered tick *does*
touch the burst-progress counters, contrary to the claim and to the
"continuous burst" documentation: the elapsed counter is advanced and
immediately reset, and the repeat counter increments on every triggered
tick (three triggered ticks leave `countRepeats = 3`). -/
theorem spike_continuous_duration_step :
    spikeSetDuration spikeContinuousPre 0 = Except.ok spikeContinuous ∧
    spikeContinuous.base.duration = -1 ∧
    (spikeStep rand0 spikeContinuous 1).1 = 5 ∧
    (spikeStep rand0 spikeContinuous 1).2.1.base.countRepeats = 1 ∧
    (spikeStep rand0 spikeContinuous 1).2.1.base.elapsedActivatedIndex = 0 ∧
    (spikeRun 1 (spikeContinuous, rand0) 3).1.base.countRepeats = 3 := by
  refine ⟨rfl, by decide, by decide, by decide, by decide, by decide⟩

/-- Claim C4, counterexample: a spike anomaly with `duration = 5`,
`Ts = 1` and `elapsed_active_ticks = 3` resets its counters and
increments the repeat counter on the next triggered tick even though the
incremented index (4) differs from `floor(duration/Ts)` (5) — the claim's
"precisely when `elapsed_active_ticks == floor(duration/tick_period)`"
does not hold on the code. -/
theorem spike_wrap_not_at_floor_counterexample :
    (spikeStep rand0 spikeAtWrap 1).2.1.base.countRepeats = 1 ∧
    (spikeStep rand0 spikeAtWrap 1).2.1.base.elapsedActivatedIndex = 0 ∧
    (spikeStep rand0 spikeAtWrap 1).2.1.base.startDelayIndex = 0 ∧
    spikeAtWrap.base.elapsedActivatedIndex + 1 ≠
      goTrunc (spikeAtWrap.base.duration / 1) := by
  refine ⟨by decide, by decide, by decide, by decide⟩

/-- Claim C4 as amended: on every triggered active tick the spike records
`elapsed_active_time = elapsed_active_ticks·Ts` and increments
`elapsed_active_ticks`; the counters then reset and the repeat counter
increments precisely when the incremented index is `≥ int(duration/Ts) − 1`
(one tick earlier than the trend state machine, and with a `≥`
comparison), and not before. -/
theorem spike_wrap_one_tick_early (r : Rand α) (s : SpikeState α) (Ts : α)
    (hoff : s.base.off = false)
    (hmore : s.base.countRepeats < s.base.repeats ∨ s.base.repeats = 0)
    (hstart : s.base.startDelayIndex ≥ goTrunc (s.base.startDelay / Ts) - 1)
    (htrig : ¬(r.u r.ui > fetchProbability { s with base := spikeActiveBase s Ts })) :
    (spikeStep r s Ts).2.1.base.elapsedActivatedTime =
      (s.base.elapsedActivatedIndex : α) * Ts ∧
    (s.base.elapsedActivatedIndex + 1 ≥ goTrunc (s.base.duration / Ts) - 1 →
       (spikeStep r s Ts).2.1.base.elapsedActivatedIndex = 0 ∧
       (spikeStep r s Ts).2.1.base.startDelayIndex = 0 ∧
       (spikeStep r s Ts).2.1.base.countRepeats = s.base.countRepeats + 1) ∧
    (s.base.elapsedActivatedIndex + 1 < goTrunc (s.base.duration / Ts) - 1 →
       (spikeStep r s Ts).2.1.base.elapsedActivatedIndex =
         s.base.elapsedActivatedIndex + 1 ∧
       (spikeStep r s Ts).2.1.base.startDelayIndex = s.base.startDelayIndex ∧
       (spikeStep r s Ts).2.1.base.countRepeats = s.base.countRepeats) := by
  obtain ⟨⟨rep, off, sd, dur, act, sdi, eai, eat, cr⟩, mag, vary, sign, prob, mf, pf⟩ := s
  simp only at hoff hmore hstart htrig ⊢
  subst hoff
  by_cases hreset : (eai + 1 ≥ goTrunc (dur / Ts) - 1)
  · simp only [spikeActiveBase] at htrig
    simp [spikeStep, checkAnomalyActive, Rand.nextUniform, hmore, hstart, htrig, hreset]
  · simp only [spikeActiveBase] at htrig
    simp [spikeStep, checkAnomalyActive, Rand.nextUniform, hmore, hstart, htrig, hreset]

/-- Witness for the amended C4: the wrap applied to the concrete spike
anomaly `spikeAtWrap` (duration 5, index 3, triggered at `Ts = 1`). -/
theorem spike_wrap_one_tick_early_witness :
    (spikeStep rand0 spikeAtWrap 1).2.1.base.elapsedActivatedIndex = 0 ∧
    (spikeStep rand0 spikeAtWrap 1).2.1.base.countRepeats =
      spikeAtWrap.base.countRepeats + 1 := by
  have h := spike_wrap_one_tick_early rand0 spikeAtWrap 1 (by decide) (by decide)
    (by decide) (by decide)
  exact ⟨(h.2.1 (by decide)).1, (h.2.1 (by decide)).2.2⟩

/-- Claim C5 (failing input evaluated): the registry lookup rejects every
name that is not a key of the map with the error
`"trend function not found"` — but the empty string is not a key either,
so, contrary to the claim and to the lookup's own doc comment, the
empty-string lookup fails instead of returning the linear function. -/
theorem registry_lookup_empty_name_error :
    GetTrendFunctionFromName "" = Except.error "trend function not found" ∧
    (∀ name : String, name ∉ mathsFunctions.map Prod.fst →
      GetTrendFunctionFromName name = Except.error "trend function not found") ∧
    GetTrendFunctionFromName "linear" = Except.ok MFunc.linear := by
  refine ⟨rfl, ?_, rfl⟩
  intro name hname
  unfold GetTrendFunctionFromName
  rw [lookup_eq_none_of_not_mem_keys mathsFunctions name hname]

/-- Witness for C5: the general not-registered case applied to the
concrete unregistered name `"zigzag"`. -/
theorem registry_lookup_empty_name_error_witness :
    GetTrendFunctionFromName "zigzag" = Except.error "trend function not found" :=
  registry_lookup_empty_name_error.2.1 "zigzag" (by decide)

end Emulator

namespace Emulator

/-- Claim C6, counterexample: two trend anomalies both using the
`random_walk` shaping function share the single package-level walk
closure; starting from shared globals `walkG`, stepping anomaly B alone
returns `1/2`, but stepping anomaly A first advances the shared previous
value, after which the same step of B returns `1` — a call through one
anomaly changes the next value returned to the other. -/
theorem shared_random_walk_counterexample :
    (trendStepM randomWalkCall walkG trendWalk 1).1 = 1/2 ∧
    (trendStepM randomWalkCall
        ((trendStepM randomWalkCall walkG trendWalk 1).2.2) trendWalk 1).1 = 1 ∧
    (trendStepM randomWalkCall
        ((trendStepM randomWalkCall walkG trendWalk 1).2.2) trendWalk 1).1 ≠
      (trendStepM randomWalkCall walkG trendWalk 1).1 := by
  refine ⟨by decide, by decide, by decide⟩

/-- Claim C6 as amended: the random-walk memory is a single module-global
closure shared by every user of the registry's `random_walk` entry, so
there exist two independent trend anomalies and a walk state for which a
call made through one changes the next value returned to the other. -/
theorem shared_random_walk_interference :
    ∃ (tA tB : TrendState ℚ) (g : WalkGlobals ℚ) (Ts : ℚ),
      (trendStepM randomWalkCall ((trendStepM randomWalkCall g tA Ts).2.2) tB Ts).1 ≠
        (trendStepM randomWalkCall g tB Ts).1 :=
  ⟨trendWalk, trendWalk, walkG, 1, by decide⟩

/-- Claim C7: adding an anomaly whose name is already present in the
container fails with the duplicate-name error and produces no container
(the Go method returns before mutating the receiver, leaving its contents
unchanged); adding an anomaly with a fresh name succeeds and appends it,
preserving the existing entries. -/
theorem container_add_duplicate_rejected (c : List NamedAnomaly) (a : NamedAnomaly) :
    ((∃ b ∈ c, b.name = a.name) →
      AddAnomaly c a = Except.error ("anomaly with name " ++ a.name ++ " already exists")) ∧
    ((∀ b ∈ c, b.name ≠ a.name) → AddAnomaly c a = Except.ok (c ++ [a])) := by
  constructor
  · intro hdup
    have hsome : (GetAnomalyByName c a.name).isSome = true :=
      (getAnomalyByName_isSome c a.name).2 hdup
    simp [AddAnomaly, hsome]
  · intro hfresh
    have hnone : ¬((GetAnomalyByName c a.name).isSome = true) := by
      rw [getAnomalyByName_isSome c a.name]
      push_neg
      exact hfresh
    simp [AddAnomaly, hnone]

/-- Witness for C7: a duplicate insertion rejected and a fresh insertion
appended, on a concrete two-element container. -/
theorem container_add_duplicate_rejected_witness :
    AddAnomaly [⟨"a", "trend"⟩, ⟨"b", "spike"⟩] ⟨"a", "spike"⟩ =
      Except.error "anomaly with name a already exists" ∧
    AddAnomaly [⟨"a", "trend"⟩, ⟨"b", "spike"⟩] ⟨"c", "trend"⟩ =
      Except.ok [⟨"a", "trend"⟩, ⟨"b", "spike"⟩, ⟨"c", "trend"⟩] := by
  constructor
  · exact (container_add_duplicate_rejected [⟨"a", "trend"⟩, ⟨"b", "spike"⟩] ⟨"a", "spike"⟩).1
      (by decide)
  · exact (container_add_duplicate_rejected [⟨"a", "trend"⟩, ⟨"b", "spike"⟩] ⟨"c", "trend"⟩).2
      (by decide)

/-- Claim C8: the phase-wrap function leaves every angle in `(−π, π]`
unchanged, subtracts `2π` from every angle above `π`, and — being
one-sided — also returns every angle below `−π` unchanged. -/
theorem wrapAngle_one_sided (a : ℝ) :
    (-Real.pi < a → a ≤ Real.pi → wrapAngle a = a) ∧
    (a > Real.pi → wrapAngle a = a - 2 * Real.pi) ∧
    (a < -Real.pi → wrapAngle a = a) := by
  refine ⟨?_, ?_, ?_⟩
  · intro _ hle
    have : ¬(a > Real.pi) := not_lt.2 hle
    simp [wrapAngle, this]
  · intro hgt
    simp [wrapAngle, hgt]
  · intro hlt
    have hpi : (0:ℝ) < Real.pi := Real.pi_pos
    have : ¬(a > Real.pi) := by linarith
    simp [wrapAngle, this]

/-- Witness for C8: the three branches of the wrap evaluated at `0`, `4`
and `−4` (using `3 < π < 3.15`). -/
theorem wrapAngle_one_sided_witness :
    wrapAngle 0 = 0 ∧ wrapAngle 4 = 4 - 2 * Real.pi ∧ wrapAngle (-4) = -4 := by
  have h3 : (3:ℝ) < Real.pi := Real.pi_gt_three
  have h315 : Real.pi < 3.15 := Real.pi_lt_d2
  refine ⟨(wrapAngle_one_sided 0).1 (by linarith) (by linarith),
          (wrapAngle_one_sided 4).2.1 (by norm_num at h315 ⊢; linarith),
          (wrapAngle_one_sided (-4)).2.2 (by norm_num at h315 ⊢; linarith)⟩

end Emulator

namespace Emulator

/-- Claim C9 (as amended): when the three harmonic arrays do not all have
equal length, the step raises no error and the harmonic contribution is
exactly zero — the step produces the same outputs, container states and
random source as the same state with no harmonic tables at all, every
other term unchanged.  When the lengths are equal, each phase output
equals the harmonics-free output plus the per-phase harmonic sum
`Σ sin(n·phase + ang)·(mag·PosSeqMag_field)` scaled by
`(1 + harmonics anomaly delta)`; the magnitude factor is the ramped
`PosSeqMag` field, not `pos_seq_mag_effective`. -/
theorem threephase_harmonics_soft_fail (sinF : ℝ → ℝ) (r : Rand ℝ)
    (e : ThreePhaseState) (f Ts : ℝ) :
    (¬ goodHarmonics e →
      (stepThreePhase sinF r e f Ts).1 =
        { (stepThreePhase sinF r (stripHarmonics e) f Ts).1 with
            HarmonicNumbers := e.HarmonicNumbers,
            HarmonicMags := e.HarmonicMags,
            HarmonicAngs := e.HarmonicAngs } ∧
      (stepThreePhase sinF r e f Ts).2 = (stepThreePhase sinF r (stripHarmonics e) f Ts).2) ∧
    (goodHarmonics e →
      (stepThreePhase sinF r e f Ts).1.A =
        (stepThreePhase sinF r (stripHarmonics e) f Ts).1.A +
          (harmonicLoop sinF (e.HarmonicNumbers.zip (e.HarmonicMags.zip e.HarmonicAngs))
              (tpPosSeqPhase r e f Ts) (tpPosSeqMagField e)).1 * (1 + tpHarmScale r e Ts) ∧
      (stepThreePhase sinF r e f Ts).1.B =
        (stepThreePhase sinF r (stripHarmonics e) f Ts).1.B +
          (harmonicLoop sinF (e.HarmonicNumbers.zip (e.HarmonicMags.zip e.HarmonicAngs))
              (tpPosSeqPhase r e f Ts) (tpPosSeqMagField e)).2.1 * (1 + tpHarmScale r e Ts) ∧
      (stepThreePhase sinF r e f Ts).1.C =
        (stepThreePhase sinF r (stripHarmonics e) f Ts).1.C +
          (harmonicLoop sinF (e.HarmonicNumbers.zip (e.HarmonicMags.zip e.HarmonicAngs))
              (tpPosSeqPhase r e f Ts) (tpPosSeqMagField e)).2.2 * (1 + tpHarmScale r e Ts)) := by
  have hgS : ¬(0 < (stripHarmonics e).HarmonicNumbers.length ∧
      (stripHarmonics e).HarmonicNumbers.length = (stripHarmonics e).HarmonicMags.length ∧
      (stripHarmonics e).HarmonicNumbers.length = (stripHarmonics e).HarmonicAngs.length) := by
    simp [stripHarmonics]
  constructor
  · intro hbad
    have hgE : ¬(0 < e.HarmonicNumbers.length ∧
        e.HarmonicNumbers.length = e.HarmonicMags.length ∧
        e.HarmonicNumbers.length = e.HarmonicAngs.length) := by
      rintro ⟨_, h1, h2⟩
      exact hbad ⟨h1, h2⟩
    rw [stepThreePhase_eq_aux sinF r e f Ts, if_neg hgE,
        stepThreePhase_eq_aux sinF r (stripHarmonics e) f Ts, if_neg hgS,
        stepThreePhaseAux_strip]
    exact ⟨rfl, rfl⟩
  · intro hgood
    rw [stepThreePhase_eq_aux sinF r e f Ts,
        stepThreePhase_eq_aux sinF r (stripHarmonics e) f Ts, if_neg hgS,
        stepThreePhaseAux_strip]
    by_cases hpos : 0 < e.HarmonicNumbers.length
    · rw [if_pos ⟨hpos, hgood.1, hgood.2⟩]
      exact ⟨stepThreePhaseAux_A sinF r e f Ts _,
             stepThreePhaseAux_B sinF r e f Ts _,
             stepThreePhaseAux_C sinF r e f Ts _⟩
    · have hnil : e.HarmonicNumbers = [] := List.length_eq_zero.1 (by omega)
      have hgE : ¬(0 < e.HarmonicNumbers.length ∧
          e.HarmonicNumbers.length = e.HarmonicMags.length ∧
          e.HarmonicNumbers.length = e.HarmonicAngs.length) := by
        rintro ⟨h, _, _⟩
        exact hpos h
      rw [if_neg hgE, hnil]
      refine ⟨?_, ?_, ?_⟩ <;>
        simp [harmonicLoop]

/-- Witness for C9: the mismatch branch evaluated on `threePhaseC9` with
its harmonic-magnitude array emptied — the phase-A output equals the
harmonics-free output. -/
theorem threephase_harmonics_soft_fail_witness :
    (stepThreePhase (fun _ => 1) randR0 { threePhaseC9 with HarmonicMags := [] } 0 1).1.A =
      (stepThreePhase (fun _ => 1) randR0
        (stripHarmonics { threePhaseC9 with HarmonicMags := [] }) 0 1).1.A := by
  have h := (threephase_harmonics_soft_fail (fun _ => 1) randR0
    { threePhaseC9 with HarmonicMags := [] } 0 1).1
    (by simp [goodHarmonics, threePhaseC9])
  rw [h.1]

/-- Claim C9, counterexample to the spec's formula: with an active fault
offset the harmonic sums are *not* `sin(n·phase + ang)·(mag·pos_seq_mag_effective)`
scaled by `(1 + delta)`: on `threePhaseC9` (ramped field 1, effective
magnitude 2, unit harmonic, constant sine 1) the code's phase-A output is
`3`, while the harmonics-free output plus the spec's effective-magnitude
harmonic term is `4`. -/
theorem threephase_harmonics_effective_mag_counterexample :
    (stepThreePhase (fun _ => 1) randR0 threePhaseC9 0 1).1.A = 3 ∧
    (stepThreePhase (fun _ => 1) randR0 (stripHarmonics threePhaseC9) 0 1).1.A +
        specHarmonicSumA (fun _ => 1)
            (threePhaseC9.HarmonicNumbers.zip
              (threePhaseC9.HarmonicMags.zip threePhaseC9.HarmonicAngs))
            (tpPosSeqPhase randR0 threePhaseC9 0 1)
            (tpPosSeqMagEffective randR0 threePhaseC9 1) *
          (1 + tpHarmScale randR0 threePhaseC9 1) = 4 := by
  have hpi : ¬((0:ℝ) > Real.pi) := not_lt.2 Real.pi_pos.le
  constructor
  · norm_num [stepThreePhase, stepAll, wrapAngle, threePhaseC9, harmonicLoop,
      Rand.nextNormal, randR0, hpi]
  · norm_num [stepThreePhase, stepAll, wrapAngle, threePhaseC9, stripHarmonics,
      harmonicLoop, specHarmonicSumA, tpPosSeqPhase, tpPosSeqMagEffective,
      tpPosSeqMagField, tpHarmScale, Rand.nextNormal, randR0, hpi]

end Emulator

namespace Emulator

/-- Claim C10, counterexample: a trend anomaly's output sequence is *not*
fully determined by its configuration and tick period — with the stateful
`random_walk` shaping function, the same anomaly state stepped at the same
tick period returns `1/2` or `3/2` depending on the shared walk state. -/
theorem trend_walk_nondeterminism_counterexample :
    (trendStepM randomWalkCall ⟨0, fun _ => 1, 0⟩ trendWalk 1).1 = 1/2 ∧
    (trendStepM randomWalkCall ⟨1, fun _ => 1, 0⟩ trendWalk 1).1 = 3/2 ∧
    (trendStepM randomWalkCall ⟨0, fun _ => 1, 0⟩ trendWalk 1).1 ≠
      (trendStepM randomWalkCall ⟨1, fun _ => 1, 0⟩ trendWalk 1).1 := by
  refine ⟨by decide, by decide, by decide⟩

end Emulator
